import Mathlib

/-!
A verification development for the trapper-keeper-mcp documentation organizer.

The TypeScript sources (src/utils/categories.ts, src/utils/analyzer.ts,
src/tools/organize.ts, src/tools/critical.ts, src/tools/reference.ts) are
shallowly embedded below: every function is translated line by line into a
computable Lean definition over `List Char` / `List String`.  JavaScript
strings are modelled as Lean strings (sequences of Unicode scalars); the
ASCII-only pieces of JavaScript semantics that the code exercises
(`toLowerCase`, `toUpperCase`, `\b`, `\s`, `\w`) are modelled on ASCII,
which is faithful for every character class the regexes in the source use.
JavaScript `Array.prototype.sort` (stable since ES2019) applied to a
boolean comparator is modelled by its unique stable result
(true-part ++ false-part).  File-system effects are modelled by explicit
result fields (`docWrites`, `claudeLines`) and a `writeFails` oracle for
fallible writes.
-/

set_option maxRecDepth 100000

/-! ## Generic string helpers (JavaScript semantics) -/

/-- JavaScript word character (`\w` = `[A-Za-z0-9_]`). -/
def jsWordChar (c : Char) : Bool :=
  ('a' ≤ c && c ≤ 'z') || ('A' ≤ c && c ≤ 'Z') || ('0' ≤ c && c ≤ '9') || c = '_'

/-- JavaScript whitespace (`\s`), restricted to the ASCII part.  The lines the
source feeds to these predicates come from `content.split('\n')`, so they never
contain `'\n'`; the non-ASCII whitespace code points JavaScript additionally
accepts are not modelled. -/
def jsSpace (c : Char) : Bool :=
  c = ' ' || c = '\t' || c = '\n' || c = '\r' || c = '\x0b' || c = '\x0c'

/-- ASCII lowercasing, the fragment of `String.prototype.toLowerCase` the
source relies on. -/
def asciiLower (s : String) : String := String.mk (s.toList.map Char.toLower)

/-- ASCII uppercasing, the fragment of `String.prototype.toUpperCase` the
source relies on. -/
def asciiUpper (s : String) : String := String.mk (s.toList.map Char.toUpper)

/-- `needle` occurs as a contiguous sublist of `hay`
(JavaScript `String.prototype.includes`). -/
def listContains (hay needle : List Char) : Bool :=
  match hay with
  | [] => needle.isEmpty
  | _ :: t => needle.isPrefixOf hay || listContains t needle

/-- JavaScript `hay.includes(needle)`. -/
def strContains (hay needle : String) : Bool := listContains hay.toList needle.toList

/-- JavaScript `s.startsWith(p)`. -/
def jsStartsWith (p s : String) : Bool := p.toList.isPrefixOf s.toList

/-- Replace the first occurrence of `pat` (JavaScript
`String.prototype.replace` with a plain-string search argument); the
characters of the match are dropped and `repl` substituted.  An empty
pattern matches at position 0, as in JavaScript. -/
def replaceFirstAux (pat repl : List Char) : List Char → List Char
  | [] => []
  | c :: rest =>
    if pat.isPrefixOf (c :: rest) then repl ++ (c :: rest).drop pat.length
    else c :: replaceFirstAux pat repl rest

/-- JavaScript `s.replace(pat, repl)` for string search arguments. -/
def replaceFirst (pat repl s : String) : String :=
  String.mk (replaceFirstAux pat.toList repl.toList s.toList)

/-- JavaScript `s.split(sep)` for a single-character separator. -/
def splitOnCharAux (sep : Char) : List Char → List Char → List String
  | [], acc => [String.mk acc.reverse]
  | c :: rest, acc =>
    if c = sep then String.mk acc.reverse :: splitOnCharAux sep rest []
    else splitOnCharAux sep rest (c :: acc)

/-- JavaScript `s.split(sep)` for a single-character separator. -/
def splitOnChar (sep : Char) (s : String) : List String := splitOnCharAux sep s.toList []

/-- JavaScript `Array.prototype.splice(i, 0, ...items)`: insertion at index
`i`, clamped to the array length exactly as `splice` clamps it. -/
def insertAt (i : Nat) (items l : List String) : List String :=
  l.take i ++ items ++ l.drop i

/-- `node:path.join` of two segments, normalising the duplicate separators the
source produces (e.g. joining a project path with the default `/docs`
folder). -/
def joinPath (a b : String) : String :=
  String.mk ((a.toList.reverse.dropWhile (· = '/')).reverse
    ++ '/' :: b.toList.dropWhile (· = '/'))

/-- `node:path.join` of three segments. -/
def joinPath3 (a b c : String) : String := joinPath (joinPath a b) c

/-! ## `src/utils/categories.ts` -/

/-- One entry of the fixed category table (`DocumentCategory` in
`src/types/index.ts`). -/
structure DocumentCategory where
  emoji : String
  label : String
  description : String
  keywords : List String
deriving Repr, DecidableEq

/-- The `DOCUMENT_CATEGORIES` record of `src/utils/categories.ts`, in source
declaration order (JavaScript `Object.entries` iterates string keys in
insertion order). -/
def DOCUMENT_CATEGORIES : List (String × DocumentCategory) :=
  [ ("architecture",
     { emoji := "🏗️", label := "Architecture",
       description := "System design, technical architecture",
       keywords := ["architecture", "design", "system", "structure", "components", "diagram"] }),
    ("database",
     { emoji := "🗄️", label := "Database",
       description := "Schemas, migrations, data models",
       keywords := ["database", "schema", "migration", "model", "sql", "table", "column"] }),
    ("security",
     { emoji := "🔐", label := "Security",
       description := "Auth, permissions, security protocols",
       keywords := ["security", "auth", "authentication", "authorization", "permission", "token", "jwt"] }),
    ("features",
     { emoji := "✅", label := "Features",
       description := "Specifications, requirements",
       keywords := ["feature", "specification", "requirement", "story", "use case", "functionality"] }),
    ("monitoring",
     { emoji := "📊", label := "Monitoring",
       description := "Health checks, analytics, logging",
       keywords := ["monitoring", "health", "analytics", "logging", "metrics", "telemetry", "observability"] }),
    ("critical",
     { emoji := "🚨", label := "Critical",
       description := "Troubleshooting, emergency procedures",
       keywords := ["critical", "emergency", "troubleshooting", "error", "fix", "issue", "problem", "solution"] }),
    ("setup",
     { emoji := "📋", label := "Setup",
       description := "Installation, deployment guides",
       keywords := ["setup", "install", "deployment", "configuration", "environment", "getting started"] }),
    ("api",
     { emoji := "🌐", label := "API",
       description := "Endpoints, integrations, documentation",
       keywords := ["api", "endpoint", "integration", "rest", "graphql", "webhook", "service"] }) ]

/-- `\b` between two adjacent positions: exactly one side is a word
character (a missing side counts as a non-word character). -/
def wordBoundary (a b : Option Char) : Bool :=
  (match a with | none => false | some c => jsWordChar c)
    != (match b with | none => false | some c => jsWordChar c)

/-- Count the matches of `new RegExp("\\b" + kw + "\\b", "gi")` on `text`
(both already lowercased, so the `i` flag is inert): scan left to right; on a
match, resume after its last character (`g`-flag semantics); otherwise advance
one character.  `prev` is the character immediately before the scan position.
The source only ever uses non-empty keywords; for an empty keyword this
definition returns 0. -/
def countWordAux (kw : List Char) : Nat → Option Char → List Char → Nat
  | _, _, [] => 0
  | skip + 1, _, c :: rest => countWordAux kw skip (some c) rest
  | 0, prev, c :: rest =>
    if !kw.isEmpty && kw.isPrefixOf (c :: rest) && wordBoundary prev (some c)
        && wordBoundary kw.getLast? ((c :: rest).drop kw.length).head? then
      1 + countWordAux kw (kw.length - 1) (some c) rest
    else
      countWordAux kw 0 (some c) rest

/-- Whole-word occurrence count of `kw` in `text`.  The `skip` counter of
`countWordAux` realises the `g`-flag jump over a match one character at a
time (the characters jumped over equal the keyword's, so tracking `prev`
through them is exact). -/
def countWord (kw text : String) : Nat := countWordAux kw.toList 0 none text.toList

/-- Score of one category against lowercased content: the sum of all its
keywords' whole-word match counts (the inner loop of `detectCategory`). -/
def categoryScore (lc : String) (cat : DocumentCategory) : Nat :=
  cat.keywords.foldl (fun score kw => score + countWord kw lc) 0

/-- `detectCategory` of `src/utils/categories.ts`: fold over the category
table keeping the first strictly-better score, starting from
`{ category: 'features', score: 0 }`. -/
def detectCategory (content : String) : String :=
  let lc := asciiLower content
  (DOCUMENT_CATEGORIES.foldl
    (fun best kv =>
      let score := categoryScore lc kv.2
      if best.2 < score then (kv.1, score) else best)
    ("features", 0)).1

/-- `getCategoryEmoji` of `src/utils/categories.ts`. -/
def getCategoryEmoji (category : String) : String :=
  match DOCUMENT_CATEGORIES.lookup category with
  | some c => c.emoji
  | none => "📄"

/-- `getCategoryLabel` of `src/utils/categories.ts`. -/
def getCategoryLabel (category : String) : String :=
  match DOCUMENT_CATEGORIES.lookup category with
  | some c => c.label
  | none => "Document"

/-! ## Configuration (`src/types/index.ts`) -/

/-- `TrapperKeeperConfig.thresholds`. -/
structure Thresholds where
  claudeMdMaxLines : Nat
  extractAtLines : Nat
deriving Repr, DecidableEq

/-- `TrapperKeeperConfig.organization`. -/
structure OrganizationOptions where
  docsFolder : String
  useEmojis : Bool
  autoReference : Bool
deriving Repr, DecidableEq

/-- `TrapperKeeperConfig.patterns`. -/
structure PatternOptions where
  enforceCriticalSection : Bool
  requireReadFirstFlags : Bool
  autoTroubleshootingDocs : Bool
deriving Repr, DecidableEq

/-- `TrapperKeeperConfig.monitoring`. -/
structure MonitoringOptions where
  watchMode : Bool
  validateLinks : Bool
  healthChecks : Bool
deriving Repr, DecidableEq

/-- `TrapperKeeperConfig` of `src/types/index.ts`. -/
structure TrapperKeeperConfig where
  thresholds : Thresholds
  organization : OrganizationOptions
  patterns : PatternOptions
  monitoring : MonitoringOptions
deriving Repr, DecidableEq

/-- The `DEFAULT_CONFIG` of `src/utils/config.ts`. -/
def DEFAULT_CONFIG : TrapperKeeperConfig :=
  { thresholds := { claudeMdMaxLines := 500, extractAtLines := 200 }
    organization := { docsFolder := "/docs", useEmojis := true, autoReference := true }
    patterns := { enforceCriticalSection := true, requireReadFirstFlags := true,
                  autoTroubleshootingDocs := true }
    monitoring := { watchMode := true, validateLinks := true, healthChecks := true } }

/-! ## `src/utils/analyzer.ts` -/

/-- `ExtractionSuggestion` of `src/types/index.ts`. -/
structure ExtractionSuggestion where
  contentType : String
  category : String
  startLine : Nat
  endLine : Nat
  suggestedFileName : String
  reason : String
deriving Repr, DecidableEq

/-- `DocumentReference` of `src/types/index.ts` (`description` is optional). -/
structure DocumentReference where
  path : String
  category : String
  emoji : String
  title : String
  critical : Bool
  description : Option String
deriving Repr, DecidableEq

/-- The `currentSection` loop state of `analyzeSections`. -/
structure CurrentSection where
  title : String
  startLine : Nat
  content : List String
deriving Repr

/-- `/^##(?!#)\s+/.test(line)`: the line starts with exactly two `#` followed
by at least one whitespace character. -/
def isSectionHeader (line : String) : Bool :=
  match line.toList with
  | '#' :: '#' :: c :: _ => c ≠ '#' && jsSpace c
  | _ => false

/-- `line.replace(/^##\s+/, '')`: if the line starts with `##` and whitespace,
drop the two markers and the whole (greedy) whitespace run; otherwise leave the
line unchanged. -/
def stripHeaderMarker (line : String) : String :=
  match line.toList with
  | '#' :: '#' :: c :: rest =>
    if jsSpace c then String.mk ((c :: rest).dropWhile jsSpace) else line
  | _ => line

/-- JavaScript `String.prototype.trim` (ASCII whitespace). -/
def jsTrim (s : String) : String :=
  String.mk (((s.toList.dropWhile jsSpace).reverse.dropWhile jsSpace).reverse)

/-- The section title as computed on a header line:
`line.replace(/^##\s+/, '').trim()`. -/
def sectionTitle (line : String) : String := jsTrim (stripHeaderMarker line)

/-- Uppercase ASCII letter or digit — the class `[A-Z0-9]` of
`generateFileName`'s sanitising regex. -/
def upperAlnum (c : Char) : Bool := ('A' ≤ c && c ≤ 'Z') || ('0' ≤ c && c ≤ '9')

/-- `title.replace(/[^A-Z0-9]+/g, '_')` as a one-pass scan: `inRun` says
whether the previous character already belonged to (and emitted the
underscore for) a non-alphanumeric run. -/
def collapseRunsAux (inRun : Bool) : List Char → List Char
  | [] => []
  | c :: rest =>
    if upperAlnum c then c :: collapseRunsAux false rest
    else if inRun then collapseRunsAux true rest
    else '_' :: collapseRunsAux true rest

/-- `title.replace(/[^A-Z0-9]+/g, '_')`: every maximal run of characters
outside `[A-Z0-9]` becomes a single underscore. -/
def collapseRuns (l : List Char) : List Char := collapseRunsAux false l

/-- `.replace(/^_+|_+$/g, '')`: remove the leading and the trailing underscore
run (the alternation with anchors touches nothing in the middle). -/
def trimUnderscores (l : List Char) : List Char :=
  ((l.dropWhile (· = '_')).reverse.dropWhile (· = '_')).reverse

/-- The full sanitising pipeline of `generateFileName`
(`src/utils/analyzer.ts:111-118`): uppercase, collapse non-alphanumeric runs,
trim underscores. -/
def sanitizeTitle (title : String) : String :=
  String.mk (trimUnderscores (collapseRuns (asciiUpper title).toList))

/-- `generateFileName(title, category)` of `src/utils/analyzer.ts`: the
`category` argument is accepted but never used by the source body. -/
def generateFileName (title category : String) : String :=
  sanitizeTitle title ++ ".md"

/-- JavaScript `Array.prototype.join('\n')`. -/
def joinLines (ls : List String) : String :=
  match ls with
  | [] => ""
  | l :: rest => rest.foldl (fun acc s => acc ++ "\n" ++ s) l

/-- The suggestion object pushed by `analyzeSections` when a section closes at
line `endLine`. -/
def mkSuggestion (cur : CurrentSection) (endLine : Nat) : ExtractionSuggestion :=
  let category := detectCategory (joinLines cur.content)
  { contentType := category
    category := category
    startLine := cur.startLine
    endLine := endLine
    suggestedFileName := generateFileName cur.title category
    reason := "Section \x22" ++ cur.title ++ "\x22 has " ++ toString cur.content.length
      ++ " lines and appears to be " ++ category ++ " documentation" }

/-- One iteration of the `lines.forEach((line, index) => ...)` loop of
`analyzeSections`.  The state is the accumulated suggestion list and the
open `currentSection` (if any). -/
def sectionStep (st : List ExtractionSuggestion × Option CurrentSection)
    (p : Nat × String) : List ExtractionSuggestion × Option CurrentSection :=
  let index := p.1
  let line := p.2
  if isSectionHeader line then
    let sugs :=
      match st.2 with
      | some cur => if 50 < cur.content.length then st.1 ++ [mkSuggestion cur (index - 1)] else st.1
      | none => st.1
    (sugs, some { title := sectionTitle line, startLine := index, content := [] })
  else
    match st.2 with
    | some cur => (st.1, some { cur with content := cur.content ++ [line] })
    | none => (st.1, none)

/-- `analyzeSections(lines, config)` of `src/utils/analyzer.ts:66-109` (the
`config` parameter is unused by the source body; the 50-line floor is
hard-coded). -/
def analyzeSections (lines : List String) (config : TrapperKeeperConfig) :
    List ExtractionSuggestion :=
  let st := lines.enum.foldl sectionStep ([], none)
  match st.2 with
  | some cur =>
    if 50 < cur.content.length then st.1 ++ [mkSuggestion cur (lines.length - 1)] else st.1
  | none => st.1

/-- The backtick character. -/
def backquote : Char := Char.ofNat 96

/-- Parse one line against the reference pattern
`/^-\s*\*\*([^*]+)\*\*:\s*`([^`]+)`\s*(.*)$/` of `extractReferences`,
returning the three capture groups (title, path, rest).  None of the
quantified pieces can backtrack (their character classes exclude the
delimiter that follows), so this direct scan is the regex's unique match. -/
def parseReferenceLine (line : String) : Option (String × String × String) :=
  match line.toList with
  | '-' :: r1 =>
    match r1.dropWhile jsSpace with
    | '*' :: '*' :: r3 =>
      let titleChars := r3.takeWhile (· ≠ '*')
      if titleChars.isEmpty then none
      else
        match r3.dropWhile (· ≠ '*') with
        | '*' :: '*' :: ':' :: r5 =>
          match r5.dropWhile jsSpace with
          | c6 :: r7 =>
            if c6 = backquote then
              let pathChars := r7.takeWhile (· ≠ backquote)
              if pathChars.isEmpty then none
              else
                match r7.dropWhile (· ≠ backquote) with
                | _ :: r9 =>
                  some (String.mk titleChars, String.mk pathChars,
                        String.mk (r9.dropWhile jsSpace))
                | [] => none
            else none
          | [] => none
        | _ => none
    | _ => none
  | _ => none

/-- A code point in the `[\u{1F300}-\u{1F6FF}]` emoji range tested by
`extractReferences`. -/
def emojiRangeChar (c : Char) : Bool := 0x1F300 ≤ c.toNat && c.toNat ≤ 0x1F6FF

/-- `extractReferences(lines)` of `src/utils/analyzer.ts:28-50`. -/
def extractReferences (lines : List String) : List DocumentReference :=
  lines.filterMap (fun line =>
    (parseReferenceLine line).map (fun tpr =>
      let title := tpr.1
      let path := tpr.2.1
      let rest := tpr.2.2
      let critical := strContains rest "READ THIS FIRST!"
      let emojiOpt : Option String :=
        match rest.toList with
        | c :: _ => if emojiRangeChar c then some (String.mk [c]) else none
        | [] => none
      { path := path
        category := detectCategory title
        emoji := emojiOpt.getD (getCategoryEmoji (detectCategory title))
        title := title
        critical := critical
        description := none }))

/-- `content.split(/^#+\s+/m)`: split at every line start that carries one or
more `#` followed by whitespace; the `#` run and the greedy whitespace run are
the (removed) separator.  `atStart` tracks whether the scan position is at a
line start; a separator leaves the scan at a line start only when the last
whitespace character it swallowed was a newline. -/
def splitHeadingsAux : Bool → List Char → List Char → List String
  | _, [], acc => [String.mk acc.reverse]
  | atStart, c :: rest, acc =>
    if atStart && c = '#' then
      let afterHashes := rest.dropWhile (· = '#')
      if (afterHashes.head?.map jsSpace).getD false then
        let ws := afterHashes.takeWhile jsSpace
        let afterWs := afterHashes.dropWhile jsSpace
        String.mk acc.reverse :: splitHeadingsAux (ws.getLast? = some '\n') afterWs []
      else
        splitHeadingsAux false rest (c :: acc)
    else
      splitHeadingsAux (c = '\n') rest (c :: acc)
termination_by _ l _ => l.length
decreasing_by
  all_goals simp only [List.length_cons]
  all_goals first
    | exact Nat.lt_succ_self _
    | exact Nat.lt_succ_of_le (List.dropWhile_sublist _).length_le
    | exact Nat.lt_succ_of_le
        (le_trans (List.dropWhile_sublist _).length_le (List.dropWhile_sublist _).length_le)

/-- `content.split(/^#+\s+/m)`. -/
def splitHeadings (content : String) : List String := splitHeadingsAux true content.toList []

/-- `categories.set(category, (categories.get(category) || 0) + 1)` on an
insertion-ordered map. -/
def bumpCategory (m : List (String × Nat)) (k : String) : List (String × Nat) :=
  match m with
  | [] => [(k, 1)]
  | (k2, n) :: t => if k2 = k then (k2, n + 1) :: t else (k2, n) :: bumpCategory t k

/-- `detectCategories(content)` of `src/utils/analyzer.ts:52-64`; the
`Map<string, number>` is modelled as an insertion-ordered association list. -/
def detectCategories (content : String) : List (String × Nat) :=
  (splitHeadings content).foldl
    (fun m seg => if jsTrim seg ≠ "" then bumpCategory m (detectCategory seg) else m) []

/-- `FileAnalysis` of `src/types/index.ts`. -/
structure FileAnalysis where
  path : String
  lineCount : Nat
  references : List DocumentReference
  categories : List (String × Nat)
  needsExtraction : Bool
  suggestedExtractions : List ExtractionSuggestion
deriving Repr

/-- `analyzeFile` of `src/utils/analyzer.ts:5-26`, with the file read modelled
away: the caller passes the line list `content.split('\n')` directly (so
`content` is `joinLines lines`). -/
def analyzeFile (path : String) (lines : List String) (config : TrapperKeeperConfig) :
    FileAnalysis :=
  let lineCount := lines.length
  let references := extractReferences lines
  let categories := detectCategories (joinLines lines)
  let needsExtraction := config.thresholds.extractAtLines < lineCount
  let suggestedExtractions := if needsExtraction then analyzeSections lines config else []
  { path := path, lineCount := lineCount, references := references,
    categories := categories, needsExtraction := needsExtraction,
    suggestedExtractions := suggestedExtractions }

/-! ## `src/tools/organize.ts` -/

/-- `detectCategoryFromFileName` of `src/tools/organize.ts:471-482`. -/
def detectCategoryFromFileName (fileName : String) : String :=
  let lowerName := asciiLower fileName
  if strContains lowerName "arch" then "architecture"
  else if strContains lowerName "db" || strContains lowerName "database" then "database"
  else if strContains lowerName "auth" || strContains lowerName "security" then "security"
  else if strContains lowerName "setup" || strContains lowerName "install" then "setup"
  else if strContains lowerName "api" then "api"
  else if strContains lowerName "trouble" || strContains lowerName "error" then "critical"
  else "features"

/-- The reference line built for one extracted file inside
`updateClaudeMdWithReferences`:
`` `- **${emoji} ${fileName}**: \`${relativePath}\`` ``. -/
def extractedFileReferenceLine (claudeMdPath file : String) : String :=
  let fileName := replaceFirst ".md" "" ((splitOnChar '/' file).getLast?.getD "")
  let category := detectCategoryFromFileName fileName
  let emoji := getCategoryEmoji category
  let relativePath := replaceFirst (replaceFirst "/CLAUDE.md" "" claudeMdPath) "" file
  "- **" ++ emoji ++ " " ++ fileName ++ "**: \x60" ++ relativePath ++ "\x60"

/-- Does a line locate the reference section
(`line.includes('Key Documentation References') ||
line.includes('Documentation References')`)? -/
def isReferenceSectionLine (line : String) : Bool :=
  strContains line "Key Documentation References" || strContains line "Documentation References"

/-- `updateClaudeMdWithReferences` of `src/tools/organize.ts:427-469`, on the
line list of the document.  When no reference-section line exists, the three
block lines are spliced in right after the first `#`-initial line (index
`-1 + 1 = 0` when there is none, exactly as in the source); then the new
reference lines are spliced in at `referenceSectionIndex + 2` with no
deletion. -/
def updateClaudeMdWithReferences (lines : List String) (extractedFiles : List String)
    (claudeMdPath : String) : List String :=
  let found := lines.findIdx? isReferenceSectionLine
  let st :=
    match found with
    | some i => (lines, i)
    | none =>
      let titleIndex : Int :=
        match lines.findIdx? (fun line => jsStartsWith "#" line) with
        | some i => (i : Int)
        | none => -1
      let rsi := (titleIndex + 1).toNat
      (insertAt rsi ["", "## 📚 Key Documentation References", ""] lines, rsi)
  let referenceStartIndex := st.2 + 2
  let newReferences := extractedFiles.map (extractedFileReferenceLine claudeMdPath)
  insertAt referenceStartIndex newReferences st.1

/-- `OrganizationResult` of `src/types/index.ts`; the absent (`undefined`)
`errors` field is modelled as the empty list. -/
structure OrganizationResult where
  success : Bool
  extractedFiles : List String
  updatedReferences : List DocumentReference
  errors : List String
deriving Repr

/-- The full observable outcome of `organizeDocumentation`: its returned
result object, the `(path, content)` pairs written to the docs folder, and the
final content of the CLAUDE.md file (as a line list). -/
structure OrganizeOutcome where
  result : OrganizationResult
  docWrites : List (String × String)
  claudeLines : List String
deriving Repr

/-- `lines.slice(suggestion.startLine, suggestion.endLine + 1).join('\n')`:
the content that `organizeDocumentation` writes for one suggestion. -/
def extractSlice (lines : List String) (sug : ExtractionSuggestion) : String :=
  joinLines ((lines.drop sug.startLine).take (sug.endLine + 1 - sug.startLine))

/-- The per-suggestion loop body of `organizeDocumentation:379-404`.  The
accumulator carries `(extractedFiles, errors, docWrites)`; `writeFails` is the
oracle deciding which target paths fail to write (the `catch` branch). -/
def organizeStep (lines : List String) (projectPath docsFolder : String) (dryRun : Bool)
    (writeFails : String → Bool)
    (acc : List String × List String × List (String × String))
    (sug : ExtractionSuggestion) :
    List String × List String × List (String × String) :=
  let docPath := joinPath3 projectPath docsFolder sug.suggestedFileName
  if !dryRun then
    if writeFails docPath then
      (acc.1, acc.2.1 ++ ["Failed to extract " ++ sug.suggestedFileName ++ ": Error"], acc.2.2)
    else
      (acc.1 ++ [docPath], acc.2.1, acc.2.2 ++ [(docPath, extractSlice lines sug)])
  else
    (acc.1 ++ ["[DRY RUN] Would extract to: " ++ docPath], acc.2.1, acc.2.2)

/-- `organizeDocumentation` of `src/tools/organize.ts:356-425`, with the file
system modelled explicitly: `lines` is the current content of `claudeMdPath`
(split on newlines) and `writeFails` says which document writes throw.  The
early-return branch for a file within size limits returns `success: true`
with the informational message in `errors`, exactly as the source does. -/
def organizeDocumentation (projectPath claudeMdPath : String) (lines : List String)
    (config : TrapperKeeperConfig) (dryRun : Bool) (writeFails : String → Bool) :
    OrganizeOutcome :=
  let analysis := analyzeFile claudeMdPath lines config
  if !analysis.needsExtraction then
    { result := { success := true, extractedFiles := [],
                  updatedReferences := analysis.references,
                  errors := ["File is within size limits (" ++ toString analysis.lineCount
                    ++ " lines)"] }
      docWrites := []
      claudeLines := lines }
  else
    let acc := analysis.suggestedExtractions.foldl
      (organizeStep lines projectPath config.organization.docsFolder dryRun writeFails)
      ([], [], [])
    let extractedFiles := acc.1
    let errors := acc.2.1
    let claudeLines :=
      if !dryRun && 0 < extractedFiles.length then
        updateClaudeMdWithReferences lines extractedFiles claudeMdPath
      else lines
    { result := { success := errors.length = 0, extractedFiles := extractedFiles,
                  updatedReferences := analysis.references, errors := errors }
      docWrites := acc.2.2
      claudeLines := claudeLines }

/-! ## `src/tools/reference.ts` -/

/-- `formatReference` of `src/tools/reference.ts:228-231`. -/
def formatReference (ref : DocumentReference) : String :=
  let criticalFlag := if ref.critical then " 🚨 READ THIS FIRST!" else ""
  "- **" ++ ref.emoji ++ " " ++ ref.title ++ "**: \x60" ++ ref.path ++ "\x60" ++ criticalFlag

/-- One step of the grouping `reduce` of `formatReferenceSection`: append the
reference to its category's bucket, or append a new bucket (JavaScript objects
keep string keys in insertion order). -/
def addToGroup (acc : List (String × List DocumentReference)) (ref : DocumentReference) :
    List (String × List DocumentReference) :=
  match acc with
  | [] => [(ref.category, [ref])]
  | (k, v) :: t =>
    if k = ref.category then (k, v ++ [ref]) :: t else (k, v) :: addToGroup t ref

/-- The `references.reduce(...)` grouping of `formatReferenceSection`. -/
def groupByCategory (references : List DocumentReference) :
    List (String × List DocumentReference) :=
  references.foldl addToGroup []

/-- Does a category group contain a critical reference
(`grouped[a].some(r => r.critical)`)? -/
def groupHasCritical (g : String × List DocumentReference) : Bool :=
  g.2.any (·.critical)

/-- The `sortedCategories` sort of `formatReferenceSection:249-256`: a stable
sort (ES2019 `Array.prototype.sort`) under the comparator that puts groups
containing a critical reference first, and its unique result: the critical
groups in original order followed by the others in original order. -/
def sortCategoriesJS (groups : List (String × List DocumentReference)) :
    List (String × List DocumentReference) :=
  groups.filter groupHasCritical ++ groups.filter (fun g => !groupHasCritical g)

/-- The per-category `refs.sort(...)` of `formatReferenceSection:263-267`:
the stable boolean sort putting critical references first. -/
def criticalFirst (refs : List DocumentReference) : List DocumentReference :=
  refs.filter (·.critical) ++ refs.filter (fun r => !r.critical)

/-- The line list accumulated by `formatReferenceSection` of
`src/tools/reference.ts:233-275` before the final `join('\n')`. -/
def referenceSectionLines (references : List DocumentReference) : List String :=
  ["## 📚 Key Documentation References", ""]
    ++ ((sortCategoriesJS (groupByCategory references)).map
          (fun g => (criticalFirst g.2).map formatReference)).flatten

/-- `formatReferenceSection(references)` of `src/tools/reference.ts:233-275`. -/
def formatReferenceSection (references : List DocumentReference) : String :=
  joinLines (referenceSectionLines references)

/-! ## `src/tools/critical.ts` (the per-file critical classifier) -/

/-- A token of the tiny regex language the critical patterns use: literal
characters plus `.?` (one optional non-newline character). -/
inductive PatTok where
  | lit (c : Char)
  | anyOpt
deriving Repr, DecidableEq

/-- Compile one of the `criticalPatterns` strings: the two-character sequence
`.?` becomes `anyOpt`; every other character is a literal. -/
def compileCritPattern : List Char → List PatTok
  | [] => []
  | '.' :: '?' :: rest => PatTok.anyOpt :: compileCritPattern rest
  | c :: rest => PatTok.lit c :: compileCritPattern rest

/-- Match the compiled pattern at the start of `s` (`.` never matches a
newline). -/
def patMatchHere : List PatTok → List Char → Bool
  | [], _ => true
  | PatTok.lit _ :: _, [] => false
  | PatTok.lit c :: ps, d :: rest => c = d && patMatchHere ps rest
  | PatTok.anyOpt :: ps, s =>
    patMatchHere ps s ||
      (match s with
       | d :: rest => d ≠ '\n' && patMatchHere ps rest
       | [] => false)

/-- `new RegExp(pattern, 'i').test(s)`: some suffix position matches.  The
`i` flag is realised by lowercasing the subject (the patterns are already
lowercase). -/
def patTestAux (ps : List PatTok) : List Char → Bool
  | [] => patMatchHere ps []
  | c :: rest => patMatchHere ps (c :: rest) || patTestAux ps rest

/-- Case-insensitive regex test of one critical pattern against a string. -/
def critPatternTest (pattern subject : String) : Bool :=
  patTestAux (compileCritPattern pattern.toList) (asciiLower subject).toList

/-- The `criticalPatterns` array of `src/tools/critical.ts:124-136`. -/
def criticalPatterns : List String :=
  ["troubleshooting", "emergency", "critical", "error", "problem", "solution",
   "setup", "getting.?started", "quick.?start", "installation", "deployment"]

/-- JavaScript `content.slice(0, 500)`. -/
def first500 (content : String) : String := String.mk (content.toList.take 500)

/-- The pattern loop of `findCriticalDocumentation:153-160`: first pattern (in
array order) that tests true against the lowercased filename or against the
first 500 characters of the content, with `break` on the first hit. -/
def criticalPatternScan (fileName content : String) : Option String :=
  criticalPatterns.findSome? (fun p =>
    if critPatternTest p fileName || critPatternTest p (first500 content) then some p
    else none)

/-- Does the whole content contain one of the explicit critical markers
(`findCriticalDocumentation:163-165`)?  Note: the source checks the *entire*
content here, not only the first 500 characters. -/
def hasExplicitMarker (content : String) : Bool :=
  strContains content "CRITICAL" || strContains content "IMPORTANT" ||
    strContains content "READ THIS FIRST"

/-- The per-file critical classification of `findCriticalDocumentation`
(`src/tools/critical.ts:144-168`): the returned pair is
`(isCritical, matchedPattern)`.  `file` is the filename as globbed (the source
lowercases it before the pattern loop). -/
def classifyCritical (file content : String) : Bool × String :=
  let fileName := asciiLower file
  let fromScan :=
    match criticalPatternScan fileName content with
    | some p => (true, p)
    | none => (false, "")
  if hasExplicitMarker content then (true, "explicit marker") else fromScan

/-- Convenience projection: is the file classified critical? -/
def isCriticalFile (file content : String) : Bool := (classifyCritical file content).1

/-! ## Derived notions used by the specification statements -/

/-- The generic accumulator fold underlying `detectCategory`: keep the first
entry whose score strictly exceeds the best so far. -/
def pickBest (l : List (String × Nat)) (b : String × Nat) : String × Nat :=
  l.foldl (fun best p => if best.2 < p.2 then p else best) b

/-- The category/score table `detectCategory` folds over for a given input. -/
def categoryScores (content : String) : List (String × Nat) :=
  DOCUMENT_CATEGORIES.map (fun kv => (kv.1, categoryScore (asciiLower content) kv.2))

/-- The critical-file predicate exactly as the specification sentence states
it: the filename matches one of the fixed patterns, OR the *first 500
characters* of the content contain one of the literal markers.  (The source
instead also tests the patterns against the first 500 content characters and
tests the markers against the whole content.) -/
def criticalAsSpecified (file content : String) : Bool :=
  (criticalPatterns.any (fun p => critPatternTest p (asciiLower file)))
    || hasExplicitMarker (first500 content)

/-- One iteration of the section-boundary scan, recording every section's
span (the segmentation implicit in `analyzeSections`, regardless of the
50-line floor).  State: closed spans and the open section's start line. -/
def spanStep (st : List (Nat × Nat) × Option Nat) (p : Nat × String) :
    List (Nat × Nat) × Option Nat :=
  if isSectionHeader p.2 then
    match st.2 with
    | some s => (st.1 ++ [(s, p.1 - 1)], some p.1)
    | none => (st.1, some p.1)
  else st

/-- All header-delimited section spans of a document: each `##`-header line
opens a section that runs to the line before the next header, the trailing
section running to the last line.  This is the `segment` operation of the
specification, recovered from the scan of `analyzeSections`. -/
def sectionSpans (lines : List String) : List (Nat × Nat) :=
  let st := lines.enum.foldl spanStep ([], none)
  match st.2 with
  | some s => st.1 ++ [(s, lines.length - 1)]
  | none => st.1

/-- The spans `l` tile the half-open line interval starting at `start`:
the first span starts exactly at `start` and each span starts exactly one
line after its predecessor ends. -/
def SpanChain : Nat → List (Nat × Nat) → Prop
  | _, [] => True
  | start, sp :: rest => sp.1 = start ∧ sp.1 ≤ sp.2 ∧ SpanChain (sp.2 + 1) rest

/-- The line index one past the last span (`start` for an empty list). -/
def spanChainEnd : Nat → List (Nat × Nat) → Nat
  | start, [] => start
  | _, sp :: rest => spanChainEnd (sp.2 + 1) rest

/-- Total number of lines covered by a list of inclusive spans. -/
def sumSpanSizes (l : List (Nat × Nat)) : Nat :=
  l.foldr (fun sp acc => sp.2 + 1 - sp.1 + acc) 0

/-- A span is wide enough for extraction: its section has more than 50
content lines after the header line. -/
def wideSpan (sp : Nat × Nat) : Bool := 50 < sp.2 - sp.1

/-! ## Concrete fixtures for witnesses and counterexamples -/

/-- A one-title document with no reference section. -/
def syncFixtureLines : List String := ["# T"]

/-- One extracted file below the project root `/p`. -/
def syncFixtureFiles : List String := ["/p/docs/API.md"]

/-- A document whose single section exceeds the 50-line floor: a title line,
a `##` header, and 52 content lines. -/
def bigSectionLines : List String := ["# T", "## Alpha"] ++ List.replicate 52 "x"

/-- A configuration with a low extraction threshold, as a user may configure
through `trapper-keeper.yml`. -/
def lowThresholdConfig : TrapperKeeperConfig :=
  { DEFAULT_CONFIG with thresholds := { claudeMdMaxLines := 20, extractAtLines := 10 } }

/-- Content whose only critical marker sits beyond the first 500 characters:
500 letters `a` followed by `IMPORTANT`. -/
def lateMarkerContent : String := String.mk (List.replicate 500 'a') ++ "IMPORTANT"

/-- The non-critical `api` reference of the specification's two-reference
scenario. -/
def apiRef : DocumentReference :=
  { path := "/docs/API.md", category := "api", emoji := "🌐", title := "API",
    critical := false, description := none }

/-- The critical `security` reference of the specification's two-reference
scenario. -/
def securityRef : DocumentReference :=
  { path := "/docs/SECURITY.md", category := "security", emoji := "🔐", title := "Security",
    critical := true, description := none }

/-- The index of the first `##`-header line of a document, if any. -/
def firstHeaderIdx? : List String → Option Nat
  | [] => none
  | x :: t => if isSectionHeader x then some 0 else (firstHeaderIdx? t).map (· + 1)

/-- The oracle under which no document write fails. -/
def noWriteFails : String → Bool := fun _ => false

/-- The single suggestion `analyzeFile` produces on `bigSectionLines`. -/
def alphaSuggestion : ExtractionSuggestion :=
  { contentType := "features", category := "features", startLine := 1, endLine := 53,
    suggestedFileName := "ALPHA.md",
    reason := "Section \x22Alpha\x22 has 52 lines and appears to be features documentation" }

/-- A second critical `security` reference. -/
def securityRef2 : DocumentReference :=
  { path := "/docs/AUTH.md", category := "security", emoji := "🔐", title := "Auth",
    critical := true, description := none }

/-- A non-critical `security` reference. -/
def securityRefPlain : DocumentReference :=
  { path := "/docs/TOKENS.md", category := "security", emoji := "🔐", title := "Tokens",
    critical := false, description := none }

/-- A critical `database` reference. -/
def dbRefCrit : DocumentReference :=
  { path := "/docs/DB.md", category := "database", emoji := "🗄️", title := "DB",
    critical := true, description := none }

/-! ## Theorems -/

/-- C9: for every configuration and document, a line count equal to
`thresholds.extractAtLines` yields `needsExtraction = false` and an empty
suggestion list, while a line count of `thresholds.extractAtLines + 1` yields
`needsExtraction = true`: the comparison `lineCount >
config.thresholds.extractAtLines` is strict. -/
theorem analyzeFile_threshold_boundary (path : String) (lines : List String)
    (config : TrapperKeeperConfig) :
    (lines.length = config.thresholds.extractAtLines →
      (analyzeFile path lines config).needsExtraction = false ∧
      (analyzeFile path lines config).suggestedExtractions = []) ∧
    (lines.length = config.thresholds.extractAtLines + 1 →
      (analyzeFile path lines config).needsExtraction = true) := by
  constructor
  · intro h
    simp [analyzeFile, h]
  · intro h
    simp [analyzeFile, h]

/-- Witness for C9 at a concrete document and configuration: two lines with a
threshold of two (no extraction), three lines with a threshold of two
(extraction). -/
theorem analyzeFile_threshold_boundary_wit :
    ((analyzeFile "/p/CLAUDE.md" ["a", "b"]
        { DEFAULT_CONFIG with
            thresholds := { claudeMdMaxLines := 500, extractAtLines := 2 } }).needsExtraction
      = false) ∧
    ((analyzeFile "/p/CLAUDE.md" ["a", "b", "c"]
        { DEFAULT_CONFIG with
            thresholds := { claudeMdMaxLines := 500, extractAtLines := 2 } }).needsExtraction
      = true) :=
  ⟨((analyzeFile_threshold_boundary "/p/CLAUDE.md" ["a", "b"] _).1 (by decide)).1,
   (analyzeFile_threshold_boundary "/p/CLAUDE.md" ["a", "b", "c"] _).2 (by decide)⟩

/-- C3 (amended): on every invocation whose document needs extraction, the
returned success flag is true exactly when the error list is empty; on a
document that does not need extraction, the source instead returns
`success = true` together with a non-empty `errors` array holding the
informational size message. -/
theorem organize_success_iff_errors (projectPath claudeMdPath : String)
    (lines : List String) (config : TrapperKeeperConfig) (dryRun : Bool)
    (writeFails : String → Bool) :
    ((analyzeFile claudeMdPath lines config).needsExtraction = true →
      ((organizeDocumentation projectPath claudeMdPath lines config dryRun
          writeFails).result.success = true ↔
        (organizeDocumentation projectPath claudeMdPath lines config dryRun
          writeFails).result.errors = [])) ∧
    ((analyzeFile claudeMdPath lines config).needsExtraction = false →
      (organizeDocumentation projectPath claudeMdPath lines config dryRun
          writeFails).result.success = true ∧
      (organizeDocumentation projectPath claudeMdPath lines config dryRun
          writeFails).result.errors ≠ []) := by
  constructor
  · intro h
    simp only [organizeDocumentation, h, Bool.not_true, Bool.false_eq_true, if_false]
    simp [List.length_eq_zero]
  · intro h
    simp only [organizeDocumentation, h, Bool.not_false, if_true]
    simp

/-- Witness for C3 at a concrete extraction run (large document, low
threshold, no write failures): success is equivalent to an empty error
list. -/
theorem organize_success_iff_errors_wit :
    (organizeDocumentation "/p" "/p/CLAUDE.md" bigSectionLines lowThresholdConfig false
        noWriteFails).result.success = true ↔
      (organizeDocumentation "/p" "/p/CLAUDE.md" bigSectionLines lowThresholdConfig false
        noWriteFails).result.errors = [] :=
  (organize_success_iff_errors "/p" "/p/CLAUDE.md" bigSectionLines lowThresholdConfig false
    noWriteFails).1 (by decide)

/-- Counterexample to C3 as stated: on a document that does not need
extraction, the organize operation returns `success = true` while the
returned `errors` list is non-empty (it carries the informational size
message), so `success = (errors.length == 0)` fails. -/
theorem organize_success_iff_errors_cex :
    (organizeDocumentation "/p" "/p/CLAUDE.md" ["a"] lowThresholdConfig false
        noWriteFails).result.success = true ∧
      (organizeDocumentation "/p" "/p/CLAUDE.md" ["a"] lowThresholdConfig false
        noWriteFails).result.errors =
        ["File is within size limits (1 lines)"] := by
  decide

/-- Splicing-in preserves length additively. -/
theorem insertAt_length (i : Nat) (items l : List String) :
    (insertAt i items l).length = l.length + items.length := by
  simp [insertAt, List.length_take, List.length_drop]
  omega

/-- Splicing-in keeps every original line. -/
theorem mem_insertAt_of_mem {a : String} (i : Nat) (items l : List String)
    (h : a ∈ l) : a ∈ insertAt i items l := by
  unfold insertAt
  rw [← List.take_append_drop i l] at h
  rcases List.mem_append.mp h with h1 | h2
  · exact List.mem_append.mpr (Or.inl (List.mem_append.mpr (Or.inl h1)))
  · exact List.mem_append.mpr (Or.inr h2)

/-- Splicing-in contains every inserted line. -/
theorem mem_insertAt_of_mem_items {a : String} (i : Nat) (items l : List String)
    (h : a ∈ items) : a ∈ insertAt i items l :=
  List.mem_append.mpr (Or.inl (List.mem_append.mpr (Or.inr h)))

/-- After any run of `updateClaudeMdWithReferences` the document contains a
line that locates the reference section (either it already had one — that
line is preserved — or the freshly inserted heading provides it). -/
theorem updateClaudeMd_has_marker (lines files : List String) (path : String) :
    ∃ line ∈ updateClaudeMdWithReferences lines files path,
      isReferenceSectionLine line = true := by
  unfold updateClaudeMdWithReferences
  cases h : lines.findIdx? isReferenceSectionLine with
  | some i =>
    have hsome : (lines.findIdx? isReferenceSectionLine).isSome = true := by
      rw [h]; rfl
    rw [List.findIdx?_isSome] at hsome
    obtain ⟨x, hx, hpx⟩ := List.any_eq_true.mp hsome
    exact ⟨x, mem_insertAt_of_mem _ _ _ hx, hpx⟩
  | none =>
    refine ⟨"## 📚 Key Documentation References", ?_, by decide⟩
    exact mem_insertAt_of_mem _ _ _
      (mem_insertAt_of_mem_items _ _ _ (by simp))

/-- When the document already has a reference-section line, the update is a
pure splice: the document grows by exactly one line per extracted file. -/
theorem updateClaudeMd_length_of_found (lines files : List String) (path : String)
    {i : Nat} (h : lines.findIdx? isReferenceSectionLine = some i) :
    (updateClaudeMdWithReferences lines files path).length =
      lines.length + files.length := by
  unfold updateClaudeMdWithReferences
  rw [h]
  simp [insertAt_length, List.length_map]

/-- C1 (amended): `updateClaudeMdWithReferences` does not delete the existing
entry span of the reference block — it splices the freshly formatted entries
in at the top of the block and keeps everything already there.  Consequently
a second call with the same non-empty extracted-file set inserts the same
entry lines again: the document grows by one line per file and the result is
never byte-identical to the first call's output. -/
theorem updateClaudeMd_second_call_differs (lines files : List String) (path : String)
    (h : files ≠ []) :
    updateClaudeMdWithReferences (updateClaudeMdWithReferences lines files path)
        files path ≠
      updateClaudeMdWithReferences lines files path := by
  intro heq
  obtain ⟨x, hx, hpx⟩ := updateClaudeMd_has_marker lines files path
  have hsome : ((updateClaudeMdWithReferences lines files path).findIdx?
      isReferenceSectionLine).isSome = true := by
    rw [List.findIdx?_isSome]
    exact List.any_eq_true.mpr ⟨x, hx, hpx⟩
  obtain ⟨i, hi⟩ := Option.isSome_iff_exists.mp hsome
  have hlen := updateClaudeMd_length_of_found
    (updateClaudeMdWithReferences lines files path) files path hi
  rw [heq] at hlen
  have : files.length = 0 := by omega
  exact h (List.length_eq_zero.mp this)

/-- Witness for C1 (amended) at a concrete document and file set. -/
theorem updateClaudeMd_second_call_differs_wit :
    updateClaudeMdWithReferences
        (updateClaudeMdWithReferences syncFixtureLines syncFixtureFiles "/p/CLAUDE.md")
        syncFixtureFiles "/p/CLAUDE.md" ≠
      updateClaudeMdWithReferences syncFixtureLines syncFixtureFiles "/p/CLAUDE.md" :=
  updateClaudeMd_second_call_differs syncFixtureLines syncFixtureFiles "/p/CLAUDE.md"
    (by decide)

/-- Counterexample to C1 as stated: on the document `["# T"]` with the single
extracted file `/p/docs/API.md`, the second synchronization call duplicates
the freshly formatted entry instead of replacing the block, so the output is
not byte-identical — sync is not idempotent. -/
theorem updateClaudeMd_idempotence_cex :
    updateClaudeMdWithReferences
        (updateClaudeMdWithReferences syncFixtureLines syncFixtureFiles "/p/CLAUDE.md")
        syncFixtureFiles "/p/CLAUDE.md" =
      ["# T", "", "## 📚 Key Documentation References",
       "- **🌐 API**: \x60/docs/API.md\x60", "- **🌐 API**: \x60/docs/API.md\x60", ""] ∧
    updateClaudeMdWithReferences syncFixtureLines syncFixtureFiles "/p/CLAUDE.md" =
      ["# T", "", "## 📚 Key Documentation References",
       "- **🌐 API**: \x60/docs/API.md\x60", ""] := by
  decide

/-- With `dryRun = false` and no write failures, the extraction loop of
`organizeDocumentation` appends, per suggestion in order, the target path to
`extractedFiles` and the pair (target path, extracted slice) to the write
log, and records no errors. -/
theorem organize_foldl_no_failures (lines : List String) (pp df : String) :
    ∀ (sugs : List ExtractionSuggestion)
      (acc : List String × List String × List (String × String)),
      sugs.foldl (organizeStep lines pp df false noWriteFails) acc =
        (acc.1 ++ sugs.map (fun s => joinPath3 pp df s.suggestedFileName),
         acc.2.1,
         acc.2.2 ++ sugs.map (fun s =>
           (joinPath3 pp df s.suggestedFileName, extractSlice lines s))) := by
  intro sugs
  induction sugs with
  | nil => intro acc; simp
  | cons s t ih =>
    intro acc
    simp only [List.foldl_cons, List.map_cons]
    rw [ih]
    simp [organizeStep, noWriteFails, List.append_assoc]

/-- The original line list is a sublist of any splice-insertion result. -/
theorem sublist_insertAt (i : Nat) (items l : List String) :
    List.Sublist l (insertAt i items l) := by
  conv_lhs => rw [← List.take_append_drop i l]
  unfold insertAt
  rw [List.append_assoc]
  exact (List.sublist_append_right items (l.drop i)).append_left (l.take i)

/-- `updateClaudeMdWithReferences` only inserts lines: every line of the
input document survives, in order, in the output document. -/
theorem sublist_updateClaudeMd (lines files : List String) (path : String) :
    List.Sublist lines (updateClaudeMdWithReferences lines files path) := by
  unfold updateClaudeMdWithReferences
  cases h : lines.findIdx? isReferenceSectionLine with
  | some i =>
    simp only [h]
    exact sublist_insertAt _ _ _
  | none =>
    simp only [h]
    exact (sublist_insertAt _ _ _).trans (sublist_insertAt _ _ _)

/-- C2 (amended): a live (non-dry-run) organize run with no write failures
writes, for every suggestion of the extraction plan, the verbatim slice
`lines[startLine..endLine]` to the suggestion's target path — but it does
NOT remove the extracted ranges from the source document: it only inserts
reference lines, so the original line sequence survives as a sublist of the
rewritten document. -/
theorem organize_writes_and_keeps_lines (projectPath claudeMdPath : String)
    (lines : List String) (config : TrapperKeeperConfig) :
    (∀ s ∈ (analyzeFile claudeMdPath lines config).suggestedExtractions,
      (joinPath3 projectPath config.organization.docsFolder s.suggestedFileName,
        extractSlice lines s) ∈
        (organizeDocumentation projectPath claudeMdPath lines config false
          noWriteFails).docWrites) ∧
    List.Sublist lines
      (organizeDocumentation projectPath claudeMdPath lines config false
        noWriteFails).claudeLines := by
  by_cases h : (analyzeFile claudeMdPath lines config).needsExtraction = true
  · constructor
    · intro s hs
      simp only [organizeDocumentation, h, Bool.not_true, Bool.false_eq_true, if_false]
      rw [organize_foldl_no_failures]
      simp only [List.nil_append]
      exact List.mem_map.mpr ⟨s, hs, rfl⟩
    · simp only [organizeDocumentation, h, Bool.not_true, Bool.false_eq_true, if_false]
      rw [organize_foldl_no_failures]
      simp only [List.nil_append, Bool.not_false, Bool.true_and]
      split
      · exact sublist_updateClaudeMd _ _ _
      · exact List.Sublist.refl _
  · have h' : (analyzeFile claudeMdPath lines config).needsExtraction = false :=
      Bool.not_eq_true _ ▸ Bool.eq_false_iff.mpr h
    constructor
    · intro s hs
      have : (analyzeFile claudeMdPath lines config).suggestedExtractions = [] := by
        simp [analyzeFile] at h' ⊢
        intro hlt
        exact absurd (by simp [analyzeFile, hlt] : _) h
      rw [this] at hs
      cases hs
    · simp only [organizeDocumentation, h', Bool.not_false, if_true]
      exact List.Sublist.refl _

/-- Witness for C2 (amended): on the concrete large document, the single
suggestion's slice is written to `/p/docs/ALPHA.md`. -/
theorem organize_writes_and_keeps_lines_wit :
    (joinPath3 "/p" lowThresholdConfig.organization.docsFolder
        alphaSuggestion.suggestedFileName,
      extractSlice bigSectionLines alphaSuggestion) ∈
      (organizeDocumentation "/p" "/p/CLAUDE.md" bigSectionLines lowThresholdConfig false
        noWriteFails).docWrites :=
  (organize_writes_and_keeps_lines "/p" "/p/CLAUDE.md" bigSectionLines
    lowThresholdConfig).1 alphaSuggestion (by decide)

/-- Counterexample to C2 as stated: the live organize run on the concrete
large document does extract (one file is written), yet all 52 lines of the
extracted range are still present in the rewritten source document — the
range was not replaced by the reference line. -/
theorem organize_replacement_cex :
    (organizeDocumentation "/p" "/p/CLAUDE.md" bigSectionLines lowThresholdConfig false
        noWriteFails).result.extractedFiles = ["/p/docs/ALPHA.md"] ∧
    List.count "x" (organizeDocumentation "/p" "/p/CLAUDE.md" bigSectionLines
        lowThresholdConfig false noWriteFails).claudeLines = 52 ∧
    List.count "x" bigSectionLines = 52 := by
  decide

/-- Every character the collapse emits is an uppercase alphanumeric or an
underscore. -/
theorem collapseRunsAux_chars (l : List Char) :
    ∀ (b : Bool) (c : Char), c ∈ collapseRunsAux b l → upperAlnum c = true ∨ c = '_' := by
  induction l with
  | nil => intro b c hc; cases hc
  | cons a rest ih =>
    intro b c hc
    by_cases ha : upperAlnum a = true
    · simp only [collapseRunsAux, ha, if_true] at hc
      rcases List.mem_cons.mp hc with h | h
      · exact Or.inl (h ▸ ha)
      · exact ih false c h
    · simp only [collapseRunsAux, ha, if_false] at hc
      cases b with
      | true => exact ih true c (by simpa using hc)
      | false =>
        rcases List.mem_cons.mp (by simpa using hc) with h | h
        · exact Or.inr h
        · exact ih true c h

/-- When the previous character already sat in a non-alphanumeric run, the
head of the remaining collapse output is alphanumeric. -/
theorem collapseRunsAux_true_head (l : List Char) :
    ∀ c, (collapseRunsAux true l).head? = some c → upperAlnum c = true := by
  induction l with
  | nil => intro c hc; cases hc
  | cons a rest ih =>
    intro c hc
    by_cases ha : upperAlnum a = true
    · simp only [collapseRunsAux, ha, if_true, List.head?_cons, Option.some.injEq] at hc
      exact hc ▸ ha
    · simp only [collapseRunsAux, ha, if_false, if_true] at hc
      exact ih c hc

/-- The collapse never emits two consecutive underscores. -/
theorem collapseRunsAux_noDouble (l : List Char) :
    ∀ b, ¬ (['_', '_'] <:+: collapseRunsAux b l) := by
  induction l with
  | nil => intro b h; simp [collapseRunsAux] at h
  | cons a rest ih =>
    intro b h
    by_cases ha : upperAlnum a = true
    · simp only [collapseRunsAux, ha, if_true] at h
      rcases List.infix_cons_iff.mp h with hpre | hinf
      · rcases List.prefix_cons_iff.mp hpre with h0 | ⟨t, ht, _⟩
        · cases h0
        · cases ht
          exact absurd ha (by decide)
      · exact ih false hinf
    · simp only [collapseRunsAux, ha, if_false] at h
      cases b with
      | true => exact ih true (by simpa using h)
      | false =>
        rcases List.infix_cons_iff.mp (by simpa using h) with hpre | hinf
        · rcases List.prefix_cons_iff.mp hpre with h0 | ⟨t, ht, htp⟩
          · cases h0
          · cases ht
            rcases htp with ⟨u, hu⟩
            have : (collapseRunsAux true rest).head? = some '_' := by
              rw [← hu]; rfl
            exact absurd (collapseRunsAux_true_head rest '_' this) (by decide)
        · exact ih true hinf

/-- The trimmed list is an infix of the original. -/
theorem trimUnderscores_within (l : List Char) : trimUnderscores l <:+: l := by
  unfold trimUnderscores
  have h1 : (l.dropWhile (· = '_')) <:+ l := List.dropWhile_suffix _
  have h2 : ((l.dropWhile (· = '_')).reverse.dropWhile (· = '_')) <:+
      (l.dropWhile (· = '_')).reverse := List.dropWhile_suffix _
  obtain ⟨pre, hpre⟩ := h2
  have : ((l.dropWhile (· = '_')).reverse.dropWhile (· = '_')).reverse <+:
      (l.dropWhile (· = '_')) := by
    refine ⟨pre.reverse, ?_⟩
    have := congrArg List.reverse hpre
    simpa [List.reverse_append] using this
  exact this.isInfix.trans h1.isInfix

/-- The trimmed list does not start with an underscore. -/
theorem trimUnderscores_head (l : List Char) :
    (trimUnderscores l).head? ≠ some '_' := by
  unfold trimUnderscores
  intro h
  rw [List.head?_reverse] at h
  set w := (l.dropWhile (· = '_')).reverse with hw
  set u := w.dropWhile (· = '_') with hu
  have hsuf : u <:+ w := List.dropWhile_suffix _
  obtain ⟨pre, hpre⟩ := hsuf
  have hune : u ≠ [] := by
    intro h0
    rw [h0] at h
    cases h
  have hlast : w.getLast? = some '_' := by
    rw [← hpre, List.getLast?_append]
    cases hu2 : u.getLast? with
    | some c =>
      rw [hu2] at h
      cases h
      simp [hu2, Option.or]
    | none =>
      rw [hu2] at h
      cases h
  rw [hw, List.getLast?_reverse] at hlast
  have := List.head?_dropWhile_not (· = '_') l
  rw [hlast] at this
  simp at this

/-- The trimmed list does not end with an underscore. -/
theorem trimUnderscores_last (l : List Char) :
    (trimUnderscores l).getLast? ≠ some '_' := by
  unfold trimUnderscores
  intro h
  rw [List.getLast?_reverse] at h
  have := List.head?_dropWhile_not (· = '_') (l.dropWhile (· = '_')).reverse
  rw [h] at this
  simp at this

/-- C4 (amended): every suggested filename of the extraction planner is the
sanitized title with `.md` appended — uppercased, with non-alphanumeric runs
collapsed to single underscores and leading/trailing underscores trimmed —
and when the title sanitizes to the empty string the result is the bare
`.md`: the planner's `generateFileName` has no `<CATEGORY>_<timestamp>.md`
fallback (that fallback exists only in `src/tools/extract.ts`, for sections
without a `##` title line). -/
theorem generateFileName_sanitization (title category : String) :
    generateFileName title category = sanitizeTitle title ++ ".md" ∧
    (∀ c ∈ (sanitizeTitle title).toList, upperAlnum c = true ∨ c = '_') ∧
    (sanitizeTitle title).toList.head? ≠ some '_' ∧
    (sanitizeTitle title).toList.getLast? ≠ some '_' ∧
    ¬ (['_', '_'] <:+: (sanitizeTitle title).toList) ∧
    (sanitizeTitle title = "" → generateFileName title category = ".md") := by
  have htl : (sanitizeTitle title).toList
      = trimUnderscores (collapseRuns (asciiUpper title).toList) := rfl
  refine ⟨rfl, ?_, ?_, ?_, ?_, ?_⟩
  · intro c hc
    rw [htl] at hc
    exact collapseRunsAux_chars _ false c
      ((trimUnderscores_within _).subset hc)
  · rw [htl]; exact trimUnderscores_head _
  · rw [htl]; exact trimUnderscores_last _
  · rw [htl]
    intro h
    exact collapseRunsAux_noDouble _ false
      (h.trans (trimUnderscores_within _))
  · intro h
    show sanitizeTitle title ++ ".md" = ".md"
    rw [h]
    rfl

/-- Witness for C4 (amended) at concrete titles: a sanitized character of
`"Database Schema!"` is alphanumeric-or-underscore, and the empty-sanitizing
title `"!!!"` yields the bare `.md`. -/
theorem generateFileName_sanitization_wit :
    (upperAlnum 'D' = true ∨ 'D' = '_') ∧ generateFileName "!!!" "api" = ".md" :=
  ⟨(generateFileName_sanitization "Database Schema!" "database").2.1 'D' (by decide),
   (generateFileName_sanitization "!!!" "api").2.2.2.2.2 (by decide)⟩

/-- Counterexample to C4 as stated: the title `"!!!"` sanitizes to the empty
string, yet the planner's suggested filename is the bare `.md`, not a
`API_<timestamp>.md` fallback (no output of the claimed shape starts with
`API_`). -/
theorem generateFileName_fallback_cex :
    generateFileName "!!!" "api" = ".md" ∧
    jsStartsWith "API_" (generateFileName "!!!" "api") = false := by
  decide

/-- A guarded `findSome?` succeeds exactly when some element passes the
guard (the `for`-loop-with-`break` of the pattern scan, as a disjunction). -/
theorem findSome?_guard_isSome {α : Type} (f : α → Bool) (l : List α) :
    (l.findSome? (fun a => if f a then some a else none)).isSome = l.any f := by
  induction l with
  | nil => rfl
  | cons a t ih =>
    by_cases h : f a = true
    · simp [List.findSome?_cons, h]
    · have h' : f a = false := by simpa using h
      simp [List.findSome?_cons, h', ih]

/-- C5 (amended): the critical tracker classifies a file critical exactly
when one of the fixed patterns matches the lowercased filename OR matches the
first 500 characters of the content, OR the *whole* content contains one of
the literal markers `CRITICAL`, `IMPORTANT`, `READ THIS FIRST`.  (The claim's
restriction of the marker search to the first 500 characters does not hold —
only the pattern test is limited to that prefix.) -/
theorem classifyCritical_characterization (file content : String) :
    isCriticalFile file content =
      (criticalPatterns.any (fun p =>
        critPatternTest p (asciiLower file) || critPatternTest p (first500 content))
        || hasExplicitMarker content) := by
  unfold isCriticalFile classifyCritical
  by_cases hm : hasExplicitMarker content = true
  · simp [hm]
  · have hm' : hasExplicitMarker content = false := by simpa using hm
    simp only [hm', if_false, Bool.or_false]
    have hs := findSome?_guard_isSome
      (fun p => critPatternTest p (asciiLower file) || critPatternTest p (first500 content))
      criticalPatterns
    rw [← hs]
    unfold criticalPatternScan
    cases hscan : criticalPatterns.findSome? (fun p =>
        if critPatternTest p (asciiLower file) || critPatternTest p (first500 content)
        then some p else none) with
    | some p => simp [hscan]
    | none => simp [hscan]

/-- Counterexample to C5 as stated: `notes.md` matches no critical pattern
(neither by filename nor in its first 500 characters), and its only marker
occurrence (`IMPORTANT`) lies beyond the first 500 characters — the claim
says such a file is not critical, but the tracker classifies it critical,
because the source checks the markers against the whole content. -/
theorem classifyCritical_first500_cex :
    isCriticalFile "notes.md" lateMarkerContent = true ∧
    criticalAsSpecified "notes.md" lateMarkerContent = false := by
  decide

/-- Unfolding `pickBest` one entry at a time. -/
theorem pickBest_cons (p : String × Nat) (t : List (String × Nat)) (b : String × Nat) :
    pickBest (p :: t) b = pickBest t (if b.2 < p.2 then p else b) := rfl

/-- The chosen score never drops below the accumulator's score. -/
theorem pickBest_snd_le (l : List (String × Nat)) (b : String × Nat) :
    b.2 ≤ (pickBest l b).2 := by
  induction l generalizing b with
  | nil => exact le_refl _
  | cons p t ih =>
    rw [pickBest_cons]
    by_cases h : b.2 < p.2
    · rw [if_pos h]
      exact le_trans (le_of_lt h) (ih p)
    · rw [if_neg h]
      exact ih b

/-- The chosen score dominates every listed score. -/
theorem pickBest_mem_le (l : List (String × Nat)) (b : String × Nat) :
    ∀ p ∈ l, p.2 ≤ (pickBest l b).2 := by
  induction l generalizing b with
  | nil => intro p hp; cases hp
  | cons q t ih =>
    intro p hp
    rw [pickBest_cons]
    rcases List.mem_cons.mp hp with h | h
    · subst h
      by_cases hq : b.2 < p.2
      · rw [if_pos hq]
        exact pickBest_snd_le t p
      · rw [if_neg hq]
        exact le_trans (Nat.not_lt.mp hq) (pickBest_snd_le t b)
    · by_cases hq : b.2 < q.2
      · rw [if_pos hq]; exact ih q p h
      · rw [if_neg hq]; exact ih b p h

/-- If nothing beats the accumulator strictly, the fold keeps it. -/
theorem pickBest_stall (l : List (String × Nat)) :
    ∀ b, (∀ p ∈ l, p.2 ≤ b.2) → pickBest l b = b := by
  induction l with
  | nil => intro b _; rfl
  | cons q t ih =>
    intro b h
    rw [pickBest_cons, if_neg (Nat.not_lt.mpr (h q (List.mem_cons_self q t)))]
    exact ih b (fun p hp => h p (List.mem_cons_of_mem _ hp))

/-- If something beats the accumulator, the fold returns the FIRST entry
achieving the winning score: the strict `score > bestMatch.score` update
never replaces an earlier maximum by a later tie. -/
theorem pickBest_find (l : List (String × Nat)) :
    ∀ b, b.2 < (pickBest l b).2 →
      l.find? (fun p => p.2 == (pickBest l b).2) = some (pickBest l b) := by
  induction l with
  | nil => intro b h; exact absurd h (lt_irrefl _)
  | cons q t ih =>
    intro b h
    rw [pickBest_cons] at h ⊢
    by_cases hq : b.2 < q.2
    · rw [if_pos hq] at h ⊢
      by_cases hqr : q.2 < (pickBest t q).2
      · have hpred : (q.2 == (pickBest t q).2) = false := by
          simp only [beq_eq_false_iff_ne, ne_eq]
          omega
        simp only [List.find?_cons, hpred]
        exact ih q hqr
      · have heq : pickBest t q = q := by
          apply pickBest_stall
          intro p hp
          exact le_trans (pickBest_mem_le t q p hp) (Nat.not_lt.mp hqr)
        rw [heq]
        simp [List.find?_cons]
    · rw [if_neg hq] at h ⊢
      have hpred : (q.2 == (pickBest t b).2) = false := by
        simp only [beq_eq_false_iff_ne, ne_eq]
        have := Nat.not_lt.mp hq
        omega
      simp only [List.find?_cons, hpred]
      exact ih b h

/-- `detectCategory` is the first projection of the strict-max fold over the
category/score table. -/
theorem detectCategory_eq_pickBest (content : String) :
    detectCategory content = (pickBest (categoryScores content) ("features", 0)).1 := by
  unfold detectCategory pickBest categoryScores
  rw [List.foldl_map]

/-- C6: for every input text, `detectCategory` returns a category of maximal
whole-word keyword score; ties go to the category occurring first in the
fixed table iteration order (`find?` returns the first entry holding the
winning score); and when every category scores zero the designated default
`features` is returned. -/
theorem detectCategory_max_first_default (content : String) :
    ((∀ p ∈ categoryScores content, p.2 = 0) → detectCategory content = "features") ∧
    ((∃ p ∈ categoryScores content, 0 < p.2) →
      ∃ m, 0 < m ∧ (∀ p ∈ categoryScores content, p.2 ≤ m) ∧
        (categoryScores content).find? (fun p => p.2 == m) =
          some (detectCategory content, m)) := by
  constructor
  · intro h
    rw [detectCategory_eq_pickBest,
      pickBest_stall _ _ (fun p hp => le_of_eq (h p hp))]
  · rintro ⟨q, hq, hq0⟩
    have h0 : (("features", 0) : String × Nat).2
        < (pickBest (categoryScores content) ("features", 0)).2 :=
      lt_of_lt_of_le hq0 (pickBest_mem_le _ _ q hq)
    refine ⟨(pickBest (categoryScores content) ("features", 0)).2,
      h0, pickBest_mem_le _ _, ?_⟩
    rw [detectCategory_eq_pickBest]
    exact pickBest_find _ _ h0

/-- Witness for C6: a keyword-free text classifies as the default
`features`. -/
theorem detectCategory_max_first_default_wit :
    detectCategory "plain words only" = "features" :=
  (detectCategory_max_first_default "plain words only").1 (by decide)

/-- In a concatenation of a `p`-true part and a `p`-false part, any index
whose element satisfies `p` forces every earlier index to satisfy `p` as
well. -/
theorem append_true_before_false {α : Type} (p : α → Bool) (A B : List α)
    (hA : ∀ a ∈ A, p a = true) (hB : ∀ b ∈ B, p b = false)
    (i j : Nat) (hi : i < (A ++ B).length) (hj : j < (A ++ B).length)
    (hij : i < j) (h : p ((A ++ B)[j]) = true) :
    p ((A ++ B)[i]) = true := by
  by_cases hiA : i < A.length
  · rw [List.getElem_append, dif_pos hiA]
    exact hA _ (List.getElem_mem hiA)
  · have hjA : ¬ j < A.length := by omega
    rw [List.getElem_append, dif_neg hjA] at h
    have hjB : j - A.length < B.length := by
      have := List.length_append A B
      omega
    rw [hB _ (List.getElem_mem hjB)] at h
    cases h

/-- C8: in the formatted reference index, every category group containing a
critical reference sorts before every group containing none, and within each
group every critical reference precedes every non-critical one; in the
two-reference instance (critical `security`, non-critical `api`) the
security entry line precedes the api entry line. -/
theorem referenceSection_critical_first (refs : List DocumentReference) :
    (∀ i j (hi : i < (sortCategoriesJS (groupByCategory refs)).length)
       (hj : j < (sortCategoriesJS (groupByCategory refs)).length),
      i < j →
      groupHasCritical ((sortCategoriesJS (groupByCategory refs))[j]) = true →
      groupHasCritical ((sortCategoriesJS (groupByCategory refs))[i]) = true) ∧
    (∀ (g : String × List DocumentReference)
       (i j : Nat) (hi : i < (criticalFirst g.2).length)
       (hj : j < (criticalFirst g.2).length),
      i < j →
      ((criticalFirst g.2)[j]).critical = true →
      ((criticalFirst g.2)[i]).critical = true) ∧
    referenceSectionLines [apiRef, securityRef] =
      ["## 📚 Key Documentation References", "",
       formatReference securityRef, formatReference apiRef] := by
  refine ⟨?_, ?_, by decide⟩
  · intro i j hi hj hij h
    unfold sortCategoriesJS at hi hj h ⊢
    exact append_true_before_false groupHasCritical _ _
      (fun g hg => (List.mem_filter.mp hg).2)
      (fun g hg => by simpa using (List.mem_filter.mp hg).2)
      i j hi hj hij h
  · intro g i j hi hj hij h
    unfold criticalFirst at hi hj h ⊢
    exact append_true_before_false (fun r : DocumentReference => r.critical) _ _
      (fun r hr => (List.mem_filter.mp hr).2)
      (fun r hr => by simpa using (List.mem_filter.mp hr).2)
      i j hi hj hij h

/-- Witness for C8 at concrete reference lists: with two critical groups the
first sorted group is critical-bearing; inside a mixed `security` group the
first reference after the sort is critical. -/
theorem referenceSection_critical_first_wit :
    groupHasCritical
      ((sortCategoriesJS (groupByCategory [securityRef, dbRefCrit])).get
        ⟨0, by decide⟩) = true ∧
    ((criticalFirst [securityRefPlain, securityRef, securityRef2]).get
        ⟨0, by decide⟩).critical = true :=
  ⟨(referenceSection_critical_first [securityRef, dbRefCrit]).1 0 1
      (by decide) (by decide) (by decide) (by decide),
   (referenceSection_critical_first []).2.1
      ("security", [securityRefPlain, securityRef, securityRef2]) 0 1
      (by decide) (by decide) (by decide) (by decide)⟩

/-- A span chain never moves its cursor backwards. -/
theorem spanChainEnd_ge (l : List (Nat × Nat)) :
    ∀ st, SpanChain st l → st ≤ spanChainEnd st l := by
  induction l with
  | nil => intro st _; exact le_refl _
  | cons q rest ih =>
    intro st h
    obtain ⟨h1, h2, h3⟩ := h
    have := ih (q.2 + 1) h3
    simp only [spanChainEnd]
    omega

/-- Appending one span that starts exactly at the chain's cursor keeps the
chain and moves the cursor past the new span. -/
theorem spanChain_append_single (l : List (Nat × Nat)) :
    ∀ st (sp : Nat × Nat), SpanChain st l → spanChainEnd st l = sp.1 → sp.1 ≤ sp.2 →
      SpanChain st (l ++ [sp]) ∧ spanChainEnd st (l ++ [sp]) = sp.2 + 1 := by
  induction l with
  | nil =>
    intro st sp _ hend hle
    exact ⟨⟨hend.symm, hle, trivial⟩, rfl⟩
  | cons q rest ih =>
    intro st sp h hend hle
    obtain ⟨h1, h2, h3⟩ := h
    obtain ⟨ih1, ih2⟩ := ih (q.2 + 1) sp h3 hend hle
    exact ⟨⟨h1, h2, ih1⟩, ih2⟩

/-- Every span of a chain lies between the chain's start and its cursor. -/
theorem spanChain_mem (l : List (Nat × Nat)) :
    ∀ st, SpanChain st l → ∀ sp ∈ l,
      st ≤ sp.1 ∧ sp.1 ≤ sp.2 ∧ sp.2 < spanChainEnd st l := by
  induction l with
  | nil => intro st _ sp hsp; cases hsp
  | cons q rest ih =>
    intro st h sp hsp
    obtain ⟨h1, h2, h3⟩ := h
    rcases List.mem_cons.mp hsp with rfl | hm
    · refine ⟨le_of_eq h1.symm, h2, ?_⟩
      have := spanChainEnd_ge rest (sp.2 + 1) h3
      simp only [spanChainEnd]
      omega
    · obtain ⟨a, b, c⟩ := ih (q.2 + 1) h3 sp hm
      refine ⟨by omega, b, ?_⟩
      simpa [spanChainEnd] using c

/-- The spans of a chain are strictly increasing and pairwise disjoint. -/
theorem spanChain_pairwise (l : List (Nat × Nat)) :
    ∀ st, SpanChain st l →
      List.Pairwise (fun a b : Nat × Nat => a.1 < b.1 ∧ a.2 < b.1) l := by
  induction l with
  | nil => intro st _; exact List.Pairwise.nil
  | cons q rest ih =>
    intro st h
    obtain ⟨h1, h2, h3⟩ := h
    refine List.Pairwise.cons ?_ (ih _ h3)
    intro b hb
    obtain ⟨a1, b1, _⟩ := spanChain_mem rest (q.2 + 1) h3 b hb
    exact ⟨by omega, by omega⟩

/-- The sizes of a chain's spans sum to the distance the cursor travelled. -/
theorem spanChain_sum (l : List (Nat × Nat)) :
    ∀ st, SpanChain st l → sumSpanSizes l = spanChainEnd st l - st := by
  induction l with
  | nil => intro st _; simp [sumSpanSizes, spanChainEnd]
  | cons q rest ih =>
    intro st h
    obtain ⟨h1, h2, h3⟩ := h
    have hrec := ih (q.2 + 1) h3
    have hge := spanChainEnd_ge rest (q.2 + 1) h3
    simp only [sumSpanSizes, List.foldr_cons, spanChainEnd] at hrec hge ⊢
    omega

/-- A first-header index is a valid line index. -/
theorem firstHeaderIdx?_lt_length (l : List String) :
    ∀ j, firstHeaderIdx? l = some j → j < l.length := by
  induction l with
  | nil => intro j h; cases h
  | cons x t ih =>
    intro j h
    by_cases hx : isSectionHeader x = true
    · simp only [firstHeaderIdx?, hx, if_true, Option.some.injEq] at h
      subst h
      simp only [List.length_cons]
      omega
    · simp only [firstHeaderIdx?, hx, if_false] at h
      cases hj : firstHeaderIdx? t with
      | none => rw [hj] at h; cases h
      | some k =>
        rw [hj] at h
        have hkj : j = k + 1 := by simpa using h.symm
        have := ih k hj
        simp only [List.length_cons]
        omega

/-- Folding the span scan from an open section preserves the chain: the
cursor of the accumulated chain always equals the open section's start line,
and the open start line stays below the next line index. -/
theorem spanFold_open (l : List String) :
    ∀ (n h s : Nat) (spans : List (Nat × Nat)),
      SpanChain h spans → spanChainEnd h spans = s → s < n →
      ∃ spans2 s2,
        (List.enumFrom n l).foldl spanStep (spans, some s) = (spans2, some s2) ∧
        SpanChain h spans2 ∧ spanChainEnd h spans2 = s2 ∧ s2 < n + l.length := by
  induction l with
  | nil =>
    intro n h s spans hc he hs
    exact ⟨spans, s, rfl, hc, he, by simpa using hs⟩
  | cons x t ih =>
    intro n h s spans hc he hs
    rw [List.enumFrom_cons]
    simp only [List.foldl_cons]
    by_cases hx : isSectionHeader x = true
    · have hstep : spanStep (spans, some s) (n, x) = (spans ++ [(s, n - 1)], some n) := by
        simp [spanStep, hx]
      rw [hstep]
      obtain ⟨hc2, he2⟩ := spanChain_append_single spans h (s, n - 1) hc he (by omega)
      obtain ⟨sp2, s2, hr, a, b, c⟩ :=
        ih (n + 1) h n (spans ++ [(s, n - 1)]) hc2 (by rw [he2]; omega) (by omega)
      refine ⟨sp2, s2, hr, a, b, ?_⟩
      simp only [List.length_cons]
      omega
    · have hstep : spanStep (spans, some s) (n, x) = (spans, some s) := by
        simp [spanStep, hx]
      rw [hstep]
      obtain ⟨sp2, s2, hr, a, b, c⟩ := ih (n + 1) h s spans hc he (by omega)
      refine ⟨sp2, s2, hr, a, b, ?_⟩
      simp only [List.length_cons]
      omega

/-- Folding the span scan from the closed (initial) state: if the document
has no header the state never changes; otherwise the fold reduces to the
open-state fold starting right after the first header. -/
theorem spanFold_closed (l : List String) :
    ∀ n, (firstHeaderIdx? l = none →
        (List.enumFrom n l).foldl spanStep ([], none) = ([], none)) ∧
      (∀ j, firstHeaderIdx? l = some j →
        (List.enumFrom n l).foldl spanStep ([], none) =
          (List.enumFrom (n + j + 1) (l.drop (j + 1))).foldl spanStep
            ([], some (n + j))) := by
  induction l with
  | nil =>
    intro n
    exact ⟨fun _ => rfl, fun j hj => by cases hj⟩
  | cons x t ih =>
    intro n
    by_cases hx : isSectionHeader x = true
    · constructor
      · intro h0
        simp only [firstHeaderIdx?, hx, if_true] at h0
        cases h0
      · intro j hj
        simp only [firstHeaderIdx?, hx, if_true, Option.some.injEq] at hj
        subst hj
        rw [List.enumFrom_cons]
        simp only [List.foldl_cons]
        have hstep : spanStep ([], none) (n, x) = ([], some n) := by
          simp [spanStep, hx]
        rw [hstep]
        simp [List.drop_succ_cons]
    · have hstep : spanStep ([], none) (n, x) = ([], none) := by
        simp [spanStep, hx]
      constructor
      · intro h0
        simp only [firstHeaderIdx?, hx, if_false] at h0
        rw [List.enumFrom_cons]
        simp only [List.foldl_cons, hstep]
        cases hj : firstHeaderIdx? t with
        | none => exact (ih (n + 1)).1 hj
        | some k => rw [hj] at h0; cases h0
      · intro j hj
        simp only [firstHeaderIdx?, hx, if_false] at hj
        cases hjt : firstHeaderIdx? t with
        | none => rw [hjt] at hj; cases hj
        | some k =>
          rw [hjt] at hj
          have hkj : j = k + 1 := by simpa using hj.symm
          subst hkj
          rw [List.enumFrom_cons]
          simp only [List.foldl_cons, hstep]
          have := (ih (n + 1)).2 k hjt
          rw [this]
          have e1 : n + 1 + k + 1 = n + (k + 1) + 1 := by omega
          have e2 : n + 1 + k = n + (k + 1) := by omega
          rw [e1, e2, List.drop_succ_cons]

/-- Structure of the section spans of a document: no spans without a header;
with a first header at `j`, the spans form a chain starting at `j` whose
cursor ends exactly at the document length (the trailing section is flushed
to the last line). -/
theorem sectionSpans_structure (lines : List String) :
    (firstHeaderIdx? lines = none → sectionSpans lines = []) ∧
    (∀ j, firstHeaderIdx? lines = some j →
      SpanChain j (sectionSpans lines) ∧
      spanChainEnd j (sectionSpans lines) = lines.length) := by
  have henum : lines.enum = List.enumFrom 0 lines := rfl
  constructor
  · intro h0
    unfold sectionSpans
    rw [henum, (spanFold_closed lines 0).1 h0]
  · intro j hj
    have hjlt := firstHeaderIdx?_lt_length lines j hj
    have hclosed := (spanFold_closed lines 0).2 j hj
    obtain ⟨spans2, s2, hr, hc, he, hlt⟩ :=
      spanFold_open (lines.drop (j + 1)) (0 + j + 1) j (0 + j) []
        trivial (by simp [spanChainEnd]) (by omega)
    have hlt2 : s2 < lines.length := by
      rw [List.length_drop] at hlt
      omega
    have hfin : sectionSpans lines = spans2 ++ [(s2, lines.length - 1)] := by
      unfold sectionSpans
      rw [henum, hclosed, hr]
    obtain ⟨hc2, he2⟩ := spanChain_append_single spans2 j (s2, lines.length - 1)
      hc he (by omega)
    rw [hfin]
    refine ⟨hc2, ?_⟩
    rw [he2]
    omega

/-- The suggestion scan of `analyzeSections` and the span scan run in
lock-step: whenever the open states agree (same start line, content length
determined by the position), the suggestions' (start, end) projections are
exactly the wide spans, and the states keep agreeing. -/
theorem section_span_sync (l : List String) :
    ∀ (n : Nat) (sugs : List ExtractionSuggestion) (curA : Option CurrentSection)
      (spans : List (Nat × Nat)) (curS : Option Nat),
      (match curA, curS with
       | none, none => True
       | some c, some s => s = c.startLine ∧ c.startLine + c.content.length + 1 = n
       | _, _ => False) →
      sugs.map (fun s => (s.startLine, s.endLine)) = spans.filter wideSpan →
      (((List.enumFrom n l).foldl sectionStep (sugs, curA)).1.map
          (fun s => (s.startLine, s.endLine)) =
        ((List.enumFrom n l).foldl spanStep (spans, curS)).1.filter wideSpan) ∧
      (match ((List.enumFrom n l).foldl sectionStep (sugs, curA)).2,
             ((List.enumFrom n l).foldl spanStep (spans, curS)).2 with
       | none, none => True
       | some c, some s => s = c.startLine ∧
           c.startLine + c.content.length + 1 = n + l.length
       | _, _ => False) := by
  induction l with
  | nil =>
    intro n sugs curA spans curS hrel hmap
    exact ⟨hmap, hrel⟩
  | cons x t ih =>
    intro n sugs curA spans curS hrel hmap
    rw [List.enumFrom_cons]
    simp only [List.foldl_cons, List.length_cons]
    have harith : n + (t.length + 1) = (n + 1) + t.length := by omega
    rw [harith]
    by_cases hx : isSectionHeader x = true
    · cases curA with
      | none =>
        cases curS with
        | none =>
          have hstepA : sectionStep (sugs, none) (n, x)
              = (sugs, some { title := sectionTitle x, startLine := n, content := [] }) := by
            simp [sectionStep, hx]
          have hstepS : spanStep (spans, none) (n, x) = (spans, some n) := by
            simp [spanStep, hx]
          rw [hstepA, hstepS]
          exact ih (n + 1) sugs _ spans _ ⟨rfl, rfl⟩ hmap
        | some s => exact False.elim hrel
      | some c =>
        cases curS with
        | none => exact False.elim hrel
        | some s =>
          obtain ⟨hs, hn⟩ := hrel
          have hstepS : spanStep (spans, some s) (n, x)
              = (spans ++ [(s, n - 1)], some n) := by
            simp [spanStep, hx]
          by_cases h50 : 50 < c.content.length
          · have hstepA : sectionStep (sugs, some c) (n, x)
                = (sugs ++ [mkSuggestion c (n - 1)],
                   some { title := sectionTitle x, startLine := n, content := [] }) := by
              simp [sectionStep, hx, h50]
            rw [hstepA, hstepS]
            refine ih (n + 1) (sugs ++ [mkSuggestion c (n - 1)])
              (some { title := sectionTitle x, startLine := n, content := [] })
              (spans ++ [(s, n - 1)]) (some n) ⟨rfl, rfl⟩ ?_
            rw [List.map_append, List.filter_append, hmap]
            have hwide : wideSpan (s, n - 1) = true := by
              simp only [wideSpan, decide_eq_true_eq]
              omega
            rw [hs] at hwide
            simp [List.filter_cons, hwide, mkSuggestion, hs]
          · have hstepA : sectionStep (sugs, some c) (n, x)
                = (sugs, some { title := sectionTitle x, startLine := n, content := [] }) := by
              simp [sectionStep, hx, h50]
            rw [hstepA, hstepS]
            refine ih (n + 1) sugs
              (some { title := sectionTitle x, startLine := n, content := [] })
              (spans ++ [(s, n - 1)]) (some n) ⟨rfl, rfl⟩ ?_
            rw [List.filter_append, hmap]
            have hwide : wideSpan (s, n - 1) = false := by
              simp only [wideSpan, decide_eq_false_iff_not]
              omega
            simp [List.filter_cons, hwide]
    · cases curA with
      | none =>
        cases curS with
        | none =>
          have hstepA : sectionStep (sugs, none) (n, x) = (sugs, none) := by
            simp [sectionStep, hx]
          have hstepS : spanStep (spans, none) (n, x) = (spans, none) := by
            simp [spanStep, hx]
          rw [hstepA, hstepS]
          exact ih (n + 1) sugs none spans none trivial hmap
        | some s => exact False.elim hrel
      | some c =>
        cases curS with
        | none => exact False.elim hrel
        | some s =>
          obtain ⟨hs, hn⟩ := hrel
          have hstepA : sectionStep (sugs, some c) (n, x)
              = (sugs, some { c with content := c.content ++ [x] }) := by
            simp [sectionStep, hx]
          have hstepS : spanStep (spans, some s) (n, x) = (spans, some s) := by
            simp [spanStep, hx]
          rw [hstepA, hstepS]
          refine ih (n + 1) sugs (some { c with content := c.content ++ [x] })
            spans (some s) ⟨hs, ?_⟩ hmap
          simp only [List.length_append, List.length_cons, List.length_nil]
          omega

/-- The emitted suggestions are exactly the wide section spans: projecting
each suggestion to its (startLine, endLine) pair yields precisely the spans
with more than 50 content lines, in document order. -/
theorem analyzeSections_eq_spans (lines : List String) (config : TrapperKeeperConfig) :
    (analyzeSections lines config).map (fun s => (s.startLine, s.endLine)) =
      (sectionSpans lines).filter wideSpan := by
  have henum : lines.enum = List.enumFrom 0 lines := rfl
  obtain ⟨h1, h2⟩ := section_span_sync lines 0 [] none [] none trivial rfl
  unfold analyzeSections sectionSpans
  rw [henum]
  cases hA : ((List.enumFrom 0 lines).foldl sectionStep ([], none)).2 with
  | none =>
    cases hS : ((List.enumFrom 0 lines).foldl spanStep ([], none)).2 with
    | none => simpa [hA, hS] using h1
    | some s => rw [hA, hS] at h2; exact False.elim h2
  | some c =>
    cases hS : ((List.enumFrom 0 lines).foldl spanStep ([], none)).2 with
    | none => rw [hA, hS] at h2; exact False.elim h2
    | some s =>
      rw [hA, hS] at h2
      obtain ⟨hs, hn⟩ := h2
      simp only [hA, hS]
      by_cases h50 : 50 < c.content.length
      · rw [if_pos h50, List.map_append, List.filter_append, h1]
        have hwide : wideSpan (s, lines.length - 1) = true := by
          simp only [wideSpan, decide_eq_true_eq]
          omega
        rw [hs] at hwide
        simp [List.filter_cons, hwide, mkSuggestion, hs]
      · rw [if_neg h50, List.filter_append, h1]
        have hwide : wideSpan (s, lines.length - 1) = false := by
          simp only [wideSpan, decide_eq_false_iff_not]
          omega
        simp [List.filter_cons, hwide]

/-- C7 (amended): segmentation yields contiguous, non-overlapping sections —
but only from the first `##` header onwards, and only the sections with more
than 50 content lines are emitted as suggestions.  Concretely: the emitted
suggestions project to exactly the wide spans; with no header there are no
spans at all; with a first header at line `j` the spans tile [j, length)
contiguously (start of span n+1 = end of span n + 1, cursor ends at the
document length, trailing section included) and their sizes sum to
`length - j`, not to the full document length. -/
theorem segmentation_spans_structure (lines : List String) (config : TrapperKeeperConfig) :
    ((analyzeSections lines config).map (fun s => (s.startLine, s.endLine)) =
      (sectionSpans lines).filter wideSpan) ∧
    (firstHeaderIdx? lines = none → sectionSpans lines = []) ∧
    (∀ j, firstHeaderIdx? lines = some j →
      SpanChain j (sectionSpans lines) ∧
      spanChainEnd j (sectionSpans lines) = lines.length ∧
      sumSpanSizes (sectionSpans lines) = lines.length - j) := by
  refine ⟨analyzeSections_eq_spans lines config, (sectionSpans_structure lines).1, ?_⟩
  intro j hj
  obtain ⟨hc, he⟩ := (sectionSpans_structure lines).2 j hj
  refine ⟨hc, he, ?_⟩
  rw [spanChain_sum _ j hc, he]

/-- Witness for C7 (amended) at the concrete document: the first header is
line 1, the spans tile lines 1..53 and cover 53 of the 54 lines. -/
theorem segmentation_spans_structure_wit :
    SpanChain 1 (sectionSpans bigSectionLines) ∧
    spanChainEnd 1 (sectionSpans bigSectionLines) = bigSectionLines.length ∧
    sumSpanSizes (sectionSpans bigSectionLines) = bigSectionLines.length - 1 :=
  (segmentation_spans_structure bigSectionLines DEFAULT_CONFIG).2.2 1 (by decide)

/-- Counterexample to C7 as stated: the one-line document `["a"]` has no
section at all, so the concatenated section ranges cover 0 lines, not the
full document length 1 — content before the first header (here: all of it)
belongs to no section. -/
theorem segmentation_coverage_cex :
    sumSpanSizes (sectionSpans ["a"]) = 0 ∧
    (["a"] : List String).length = 1 ∧
    analyzeSections ["a"] DEFAULT_CONFIG = [] := by
  decide

/-- C10: every suggestion returned by `analyzeFile` satisfies
startLine < endLine < (number of lines) with strictly more than 50 body
lines, and the suggestion list is strictly ordered by startLine with
pairwise-disjoint inclusive ranges. -/
theorem suggestion_invariants (path : String) (lines : List String)
    (config : TrapperKeeperConfig) :
    (∀ s ∈ (analyzeFile path lines config).suggestedExtractions,
       s.startLine < s.endLine ∧ s.endLine < lines.length ∧
       50 < s.endLine - s.startLine) ∧
    List.Pairwise (fun a b => a.startLine < b.startLine ∧ a.endLine < b.startLine)
      (analyzeFile path lines config).suggestedExtractions := by
  have hsug : (analyzeFile path lines config).suggestedExtractions = [] ∨
      (analyzeFile path lines config).suggestedExtractions
        = analyzeSections lines config := by
    by_cases h : config.thresholds.extractAtLines < lines.length
    · right; simp [analyzeFile, h]
    · left; simp [analyzeFile, h]
  rcases hsug with h | h
  · rw [h]
    exact ⟨fun s hs => absurd hs (List.not_mem_nil s), List.Pairwise.nil⟩
  · rw [h]
    have hmap := analyzeSections_eq_spans lines config
    cases hj : firstHeaderIdx? lines with
    | none =>
      have hempty := (sectionSpans_structure lines).1 hj
      rw [hempty] at hmap
      have hmap2 : (analyzeSections lines config).map
          (fun s => (s.startLine, s.endLine)) = [] := by simpa using hmap
      have hnil : analyzeSections lines config = [] := List.map_eq_nil_iff.mp hmap2
      rw [hnil]
      exact ⟨fun s hs => absurd hs (List.not_mem_nil s), List.Pairwise.nil⟩
    | some j =>
      obtain ⟨hc, he⟩ := (sectionSpans_structure lines).2 j hj
      constructor
      · intro s hs
        have hmem : (s.startLine, s.endLine) ∈ (sectionSpans lines).filter wideSpan := by
          rw [← hmap]
          exact List.mem_map.mpr ⟨s, hs, rfl⟩
        obtain ⟨hmem2, hwide⟩ := List.mem_filter.mp hmem
        obtain ⟨ha, hb, hcend⟩ := spanChain_mem _ j hc _ hmem2
        rw [he] at hcend
        have hw : 50 < s.endLine - s.startLine := by
          simpa [wideSpan] using hwide
        exact ⟨by omega, hcend, hw⟩
      · have hp := spanChain_pairwise _ j hc
        have hp2 : List.Pairwise (fun a b : Nat × Nat => a.1 < b.1 ∧ a.2 < b.1)
            ((sectionSpans lines).filter wideSpan) :=
          hp.sublist (List.filter_sublist _)
        rw [← hmap, List.pairwise_map] at hp2
        exact hp2

/-- Witness for C10 at the concrete large document: the single suggestion
spans lines 1..53 of the 54-line document with 52 body lines. -/
theorem suggestion_invariants_wit :
    alphaSuggestion.startLine < alphaSuggestion.endLine ∧
    alphaSuggestion.endLine < bigSectionLines.length ∧
    50 < alphaSuggestion.endLine - alphaSuggestion.startLine :=
  (suggestion_invariants "/p/CLAUDE.md" bigSectionLines lowThresholdConfig).1
    alphaSuggestion (by decide)
